import Mathlib

/-!
Verification development for `setuptools/wheel.py` ("Wheels support").

The Python module is shallowly embedded below: pure functions become Lean
functions, the regular-expression `WHEEL_NAME` becomes an explicit
backtracking matcher with Python's non-greedy preference order, and the
stateful installation code becomes explicit state passing over abstract
file-system states.  Collaborators that live outside this module
(`pkg_resources.parse_version`, `packaging.utils.canonicalize_name`,
`pkg_resources.Distribution`, `pep425tags.get_supported`) are modelled from
the specification and marked as such in their doc comments.
-/

namespace WheelVerif

/-- `firstSome l f` returns the first `some` produced by `f` along `l`.
This realises the preference order of regex backtracking: candidates are
tried in list order and the first full success wins. -/
def firstSome : List α → (α → Option β) → Option β
  | [], _ => none
  | a :: as, f =>
    match f a with
    | some b => some b
    | none => firstSome as f

/-- All splits of `l` into a nonempty prefix and the remaining suffix,
shortest prefix first: the candidate order of a non-greedy `.+?`. -/
def nonGreedySplits (l : List Char) : List (List Char × List Char) :=
  (List.range l.length).map fun i => (l.take (i + 1), l.drop (i + 1))

/-- All splits of `l` into a possibly-empty prefix and the remaining suffix,
shortest prefix first: the candidate order of a non-greedy `.*?`. -/
def nonGreedySplits0 (l : List Char) : List (List Char × List Char) :=
  (List.range (l.length + 1)).map fun i => (l.take i, l.drop i)

/-- `.` in a Python regex (no DOTALL): any character except a newline. -/
def dotChar (c : Char) : Bool := c ≠ '\n'

/-- Match `(?P<platform>.+?)\.whl$` against `l`.  The pattern is anchored at
the end of the string, so the platform group is forced to be everything
before the final `".whl"`; it must be nonempty. -/
def matchPlatform (l : List Char) : Option (List Char) :=
  if 5 ≤ l.length && l.drop (l.length - 4) == ".whl".toList
      && (l.take (l.length - 4)).all dotChar then
    some (l.take (l.length - 4))
  else none

/-- Match `(?P<abi>.+?)-(?P<platform>.+?)\.whl$` against `l`,
trying shorter `abi` groups first (non-greedy). -/
def matchAbiPlatform (l : List Char) : Option (List Char × List Char) :=
  firstSome (nonGreedySplits l) fun s =>
    if s.1.all dotChar then
      match s.2 with
      | '-' :: rest => (matchPlatform rest).map fun p => (s.1, p)
      | _ => none
    else none

/-- Match `(?P<py_version>.+?)-(?P<abi>.+?)-(?P<platform>.+?)\.whl$`,
trying shorter `py_version` groups first (non-greedy). -/
def matchTagsPart (l : List Char) : Option (List Char × List Char × List Char) :=
  firstSome (nonGreedySplits l) fun s =>
    if s.1.all dotChar then
      match s.2 with
      | '-' :: rest => (matchAbiPlatform rest).map fun ap => (s.1, ap.1, ap.2)
      | _ => none
    else none

/-- Match `((-(?P<build>\d.*?))?-(?P<py_version>.+?)-(?P<abi>.+?)-(?P<platform>.+?))\.whl$`.
The optional build group is greedy (`?` prefers presence), so every
possibility with a build tag is tried before the build-less alternative. -/
def matchBuildTags (l : List Char) :
    Option (Option (List Char) × List Char × List Char × List Char) :=
  let withBuild : Option (Option (List Char) × List Char × List Char × List Char) :=
    match l with
    | '-' :: d :: t =>
      if d.isDigit then
        firstSome (nonGreedySplits0 t) fun s =>
          if s.1.all dotChar then
            match s.2 with
            | '-' :: rest => (matchTagsPart rest).map fun tg => (some (d :: s.1), tg)
            | _ => none
          else none
      else none
    | _ => none
  match withBuild with
  | some r => some r
  | none =>
    match l with
    | '-' :: rest => (matchTagsPart rest).map fun tg => (none, tg)
    | _ => none

/-- Match `(?P<version>\d.*?)` followed by the build/tags tail: the version
group starts with a digit and is otherwise non-greedy. -/
def matchVersionTail (l : List Char) :
    Option (List Char × Option (List Char) × List Char × List Char × List Char) :=
  match l with
  | [] => none
  | d :: t =>
    if d.isDigit then
      firstSome (nonGreedySplits0 t) fun s =>
        if s.1.all dotChar then
          (matchBuildTags s.2).map fun bt => (d :: s.1, bt)
        else none
    else none

/-- The named capture groups of the `WHEEL_NAME` pattern. -/
structure WheelGroups where
  project_name : String
  version : String
  build : Option String
  py_version : String
  abi : String
  platform : String
deriving DecidableEq, Repr

/-- The compiled pattern
`^(?P<project_name>.+?)-(?P<version>\d.*?)((-(?P<build>\d.*?))?-(?P<py_version>.+?)-(?P<abi>.+?)-(?P<platform>.+?))\.whl$`
(the verbose-mode whitespace of the source is insignificant), applied via
`re.match` to a string: an explicit backtracking matcher with Python's
leftmost / non-greedy preference order. -/
def WHEEL_NAME (s : String) : Option WheelGroups :=
  firstSome (nonGreedySplits s.toList) fun sp =>
    if sp.1.all dotChar then
      match sp.2 with
      | '-' :: rest =>
        (matchVersionTail rest).map fun vt =>
          { project_name := String.mk sp.1
            version := String.mk vt.1
            build := vt.2.1.map String.mk
            py_version := String.mk vt.2.2.1
            abi := String.mk vt.2.2.2.1
            platform := String.mk vt.2.2.2.2 }
      | _ => none
    else none

/-- `os.path.basename` (POSIX): the part of the path after the last `/`. -/
def basenameStr (s : String) : String :=
  String.mk ((s.toList.reverse.takeWhile fun c => c ≠ '/').reverse)

/-- The parsed state of a `Wheel` object after a successful `__init__`. -/
structure Wheel where
  filename : String
  project_name : String
  version : String
  build : Option String
  py_version : String
  abi : String
  platform : String
deriving DecidableEq, Repr

/-- `Wheel.__init__`: match `WHEEL_NAME` against the basename of `filename`;
on failure raise `ValueError('invalid wheel name: %r' % filename)` before any
attribute is assigned, on success set every capture group as an attribute. -/
def Wheel.init (filename : String) : Except String Wheel :=
  match WHEEL_NAME (basenameStr filename) with
  | none => .error ("invalid wheel name: " ++ filename)
  | some g =>
    .ok { filename := filename
          project_name := g.project_name
          version := g.version
          build := g.build
          py_version := g.py_version
          abi := g.abi
          platform := g.platform }

/-- Python `str.split('.')` on the underlying character list: split at every
`'.'`, keeping empty pieces; the result is never the empty list. -/
def splitDot : List Char → List (List Char)
  | [] => [[]]
  | c :: rest =>
    if c = '.' then [] :: splitDot rest
    else
      match splitDot rest with
      | [] => [[c]]
      | g :: gs => (c :: g) :: gs

/-- Python `str.split('.')` on strings. -/
def splitDotS (s : String) : List String := (splitDot s.toList).map String.mk

/-- `Wheel.tags`: `itertools.product(py_version.split('.'), abi.split('.'),
platform.split('.'))`, with `py_version` as the outermost factor and
`platform` as the innermost. -/
def Wheel.tags (w : Wheel) : List (String × String × String) :=
  (splitDotS w.py_version).flatMap fun p =>
    (splitDotS w.abi).flatMap fun a =>
      (splitDotS w.platform).map fun pl => (p, a, pl)

/-- `Wheel.is_compatible`, with the supported-tag set passed explicitly (the
source obtains it from the external collaborator `pep425tags.get_supported()`).
`next((True for t in self.tags() if t in supported_tags), False)` is the
short-circuiting existence test over the tag product. -/
def Wheel.is_compatible (w : Wheel) (supported : List (String × String × String)) : Bool :=
  w.tags.any fun t => supported.contains t

/-! ### Version parsing and comparison (`pkg_resources.parse_version`) -/

/-- Read a decimal number from the head of a character list, returning the
value and the unread remainder. -/
def readNatAux : List Char → Nat → Nat × List Char
  | [], acc => (acc, [])
  | c :: rest, acc =>
    if c.isDigit then readNatAux rest (acc * 10 + (c.toNat - 48))
    else (acc, c :: rest)

/-- Modelled from the spec: the version values produced by
`pkg_resources.parse_version` (PEP 440), restricted to the fragment the spec
uses — a dotted numeric release with an optional development pre-release
(`devN`).  A dev release sorts strictly before its release. -/
structure PVersion where
  release : List Nat
  dev : Option Nat
deriving DecidableEq, Repr

/-- Is every component zero?  (PEP 440 compares releases with implicit
zero-padding, so a trailing run of zeros is insignificant.) -/
def allZero : List Nat → Bool
  | [] => true
  | a :: as => a == 0 && allZero as

/-- Compare two release tuples with implicit zero-padding on the right. -/
def relCmp : List Nat → List Nat → Ordering
  | [], b => if allZero b then .eq else .lt
  | a :: as, [] => if a == 0 then relCmp as [] else .gt
  | a :: as, b :: bs =>
    if a < b then .lt else if b < a then .gt else relCmp as bs

/-- Strict order on modelled versions: releases compare lexicographically
with zero-padding; on equal releases a dev pre-release sorts before the
plain release, and dev numbers compare numerically. -/
def pvLt (x y : PVersion) : Bool :=
  match relCmp x.release y.release with
  | .lt => true
  | .gt => false
  | .eq =>
    match x.dev, y.dev with
    | some n, some m => n < m
    | some _, none => true
    | none, _ => false

/-- PEP 440 equality: equal padded releases and equal dev segments. -/
def pvEqv (x y : PVersion) : Bool :=
  relCmp x.release y.release == .eq && x.dev == y.dev

/-- Non-strict order on modelled versions. -/
def pvLe (x y : PVersion) : Bool := pvLt x y || pvEqv x y

/-- The release number contributed by one dot-separated component. -/
def compRelease (comp : List Char) : Nat := (readNatAux comp 0).1

/-- The dev segment contributed by one dot-separated component
(for inputs such as `"2.0dev0"`, whose last component is `"0dev0"`). -/
def compDev (comp : List Char) : Option Nat :=
  match (readNatAux comp 0).2 with
  | 'd' :: 'e' :: 'v' :: rest => some (readNatAux rest 0).1
  | _ => none

/-- Modelled from the spec: `pkg_resources.parse_version` on the version
grammar the spec exercises — `digits ('.' digits)* ('dev' digits)?`. -/
def parseVersion (s : String) : PVersion :=
  let comps := splitDot s.toList
  { release := comps.map compRelease
    dev := (comps.map compDev).foldl (fun acc d => match acc with
      | some n => some n
      | none => d) none }

/-- The format-version check of `Wheel._install_as_egg`:
`parse_version('1.0') <= wheel_version < parse_version('2.0dev0')`. -/
def wheel_v1 (wheel_version : PVersion) : Bool :=
  pvLe (parseVersion "1.0") wheel_version
    && pvLt wheel_version (parseVersion "2.0dev0")

/-! ### Metadata-directory discovery (`Wheel.get_dist_info`) -/

/-- Is `c` one of the characters collapsed by package-name canonicalization? -/
def isSepChar (c : Char) : Bool := c == '-' || c == '_' || c == '.'

/-- One pass of run-collapsing and lowercasing over a character list. -/
def canonList : List Char → List Char
  | [] => []
  | [c] => if isSepChar c then ['-'] else [c.toLower]
  | c :: d :: rest =>
    if isSepChar c then
      if isSepChar d then canonList (d :: rest)
      else '-' :: canonList (d :: rest)
    else c.toLower :: canonList (d :: rest)

/-- Modelled from the spec: `packaging.utils.canonicalize_name` — the
case/separator-normalised package-name comparison form: every run of `-`,
`_`, `.` collapses to a single `-`, and letters are lowercased. -/
def canonicalize_name (s : String) : String := String.mk (canonList s.toList)

/-- Does `l` end with the suffix `suf` (Python `str.endswith`)? -/
def endsWithL (l suf : List Char) : Bool := suf.reverse.isPrefixOf l.reverse

/-- `posixpath.dirname`: the path up to the last `/`, with trailing slashes
of the head stripped unless the head is all slashes; empty if there is no
slash. -/
def dirnameL (l : List Char) : List Char :=
  let rev := l.reverse
  let after := rev.dropWhile fun c => c ≠ '/'
  match after with
  | [] => []
  | _ :: _ =>
    let trimmed := after.dropWhile fun c => c = '/'
    match trimmed with
    | [] => after.reverse
    | _ :: _ => trimmed.reverse

/-- `posixpath.dirname` on strings. -/
def dirnameStr (s : String) : String := String.mk (dirnameL s.toList)

/-- The loop condition of `Wheel.get_dist_info` for one archive member:
`dirname.endswith('.dist-info') and
canonicalize_name(dirname).startswith(canonicalize_name(project_name))`. -/
def distInfoCond (project_name member : String) : Bool :=
  endsWithL (dirnameStr member).toList ".dist-info".toList
    && (canonicalize_name project_name).toList.isPrefixOf
        (canonicalize_name (dirnameStr member)).toList

/-- `Wheel.get_dist_info`: scan `zf.namelist()` (the parameter `names`) in
order and return the `posixpath.dirname` of the first member satisfying the
condition; raise `ValueError` if none does. -/
def get_dist_info (project_name : String) (names : List String) : Except String String :=
  match names with
  | [] => .error "unsupported wheel format. .dist-info not found"
  | member :: rest =>
    if distInfoCond project_name member then .ok (dirnameStr member)
    else get_dist_info project_name rest

/-! ### Legacy egg name (`Wheel.egg_name`) -/

/-- Modelled from the spec: the legacy distribution-egg-style name computed
by the metadata collaborator — `"{projectName}-{version}-{platformDescriptor}.egg"`
with the platform part omitted when no platform is supplied. -/
def legacyEggName (project_name version : String) (platform : Option String) : String :=
  project_name ++ "-" ++ version
    ++ (match platform with | none => "" | some p => "-" ++ p) ++ ".egg"

/-- `Wheel.egg_name`: the platform argument is `None` exactly when the
wheel's `platform` field is the literal `"any"`, and otherwise the host's
current platform descriptor `get_platform()`, passed here as `host`. -/
def Wheel.egg_name (w : Wheel) (host : String) : String :=
  legacyEggName w.project_name w.version
    (if w.platform = "any" then none else some host)

/-! ### Requirement normalization -/

/-- Python string comparison on the underlying code points (lexicographic). -/
def clLe : List Char → List Char → Bool
  | [], _ => true
  | _ :: _, [] => false
  | a :: as, b :: bs =>
    if a.toNat < b.toNat then true
    else if b.toNat < a.toNat then false
    else clLe as bs

/-- Python `<=` on strings: lexicographic comparison of code points. -/
def pyStrLe (a b : String) : Bool := clLe a.toList b.toList

/-- Python `sorted` on a list of strings: ascending lexicographic order.
(`sorted` is a stable sort; on a total order over strings any sorted
permutation is extensionally identical, so insertion sort realises it.) -/
def pySorted (l : List String) : List String :=
  List.insertionSort (fun a b => pyStrLe a b = true) l

/-- A requirement as exposed by the opaque metadata collaborator
(`pkg_resources` requirement objects): a plain requirement string plus an
optional environment marker.  Modelled from the spec. -/
structure Req where
  plain : String
  marker : Option String
deriving DecidableEq, Repr

/-- Rendering a requirement as a string: the plain requirement followed by
`"; marker"` when a marker is attached.  Modelled from the spec. -/
def reqStr (r : Req) : String :=
  r.plain ++ (match r.marker with | none => "" | some m => "; " ++ m)

/-- `raw_req` from `Wheel._install_as_egg`: set `req.marker = None`, then
render the requirement as a string. -/
def raw_req (r : Req) : String := reqStr { r with marker := none }

/-- The dependency interface of the extracted distribution (the opaque
collaborator `Distribution.from_location`): `requires()` yields the base
requirements, `extras` the declared extra names, and `requiresWith e` the
requirement list `requires((e,))` for extra `e`.  Modelled from the spec. -/
structure DistModel where
  baseReqs : List Req
  extras : List String
  requiresWith : String → List Req

/-- `install_requires = list(sorted(map(raw_req, dist.requires())))`. -/
def install_requires (d : DistModel) : List String :=
  pySorted (d.baseReqs.map raw_req)

/-- One entry of the `extras_require` dictionary comprehension:
`sorted(req for req in map(raw_req, dist.requires((extra,))) if req not in install_requires)`. -/
def extras_require (d : DistModel) (extra : String) : List String :=
  pySorted (((d.requiresWith extra).map raw_req).filter
    fun req => !(install_requires d).contains req)

/-! ### The effect trace of `Wheel._install_as_egg` -/

/-- `os.path.join` with a single separator. -/
def pjoin (a b : String) : String := a ++ "/" ++ b

/-- A filesystem mutation performed by `_install_as_egg`. -/
inductive FsOp where
  | mkdir (path : String)
  | extractAll (dest : String)
  | rename (src dst : String)
  | writeFile (path : String)
deriving DecidableEq, Repr

/-- The errors `_install_as_egg` can raise before extraction. -/
inductive InstallError where
  | distInfoNotFound
  | badWheelVersion
deriving DecidableEq, Repr

/-- The straight-line effect order of `Wheel._install_as_egg`, following the
source statement by statement: `get_dist_info` (a pure scan of the
namelist), then the `Wheel-Version` check (a read of the `WHEEL` metadata,
whose parsed version is the parameter `wheelVersion`), and only after both
succeed `os.mkdir(destination_eggdir)`, `zf.extractall`, the two metadata
renames and the `requires.txt` write.  The trace is truncated after the
requirements write; the data-directory relocation that follows is modelled
separately (`processScriptEntries`, `unpackModel`).  The function returns
the mutations performed together with the error raised, if any. -/
def installAsEggTrace (w : Wheel) (destination_eggdir : String)
    (names : List String) (wheelVersion : PVersion) :
    List FsOp × Option InstallError :=
  match get_dist_info w.project_name names with
  | .error _ => ([], some .distInfoNotFound)
  | .ok dist_info =>
    if wheel_v1 wheelVersion then
      ([.mkdir destination_eggdir,
        .extractAll destination_eggdir,
        .rename (pjoin destination_eggdir dist_info)
          (pjoin destination_eggdir "EGG-INFO"),
        .rename (pjoin (pjoin destination_eggdir "EGG-INFO") "METADATA")
          (pjoin (pjoin destination_eggdir "EGG-INFO") "PKG-INFO"),
        .writeFile (pjoin (pjoin destination_eggdir "EGG-INFO") "requires.txt")],
       none)
    else ([], some .badWheelVersion)

/-! ### Scripts relocation -/

/-- A path, as a list of components. -/
abbrev Path := List String

/-- A flat file store: an association list from paths to file identities. -/
abbrev FileSys := List (Path × Nat)

/-- `os.unlink p`: remove the file at exactly `p`. -/
def unlinkFile (fs : FileSys) (p : Path) : FileSys :=
  fs.filter fun e => e.1 ≠ p

/-- `os.rename src dst` on a single file in the flat store. -/
def renameFile (fs : FileSys) (src dst : Path) : FileSys :=
  fs.map fun e => if e.1 = src then (dst, e.2) else e

/-- The name of `p` as a direct child of `dir`, if it is one. -/
def childName (dir p : Path) : Option String :=
  if p.take dir.length = dir then
    match p.drop dir.length with
    | [n] => some n
    | _ => none
  else none

/-- `os.listdir dir` over the flat store (entries are modelled as files;
the listing order is `os.listdir`'s unspecified order, realised here as the
store order). -/
def listdirNames (fs : FileSys) (dir : Path) : List String :=
  fs.filterMap fun e => childName dir e.1

/-- `dist_data_scripts`: the `scripts` subdirectory of the data directory,
relative to `destination_eggdir`. -/
def dataScriptsDir (dist_data : String) : Path := [dist_data, "scripts"]

/-- `egg_info_scripts`: the freshly created `EGG-INFO/scripts` directory,
relative to `destination_eggdir`. -/
def eggScriptsDir : Path := ["EGG-INFO", "scripts"]

/-- The scripts loop of `_install_as_egg`: for each entry of
`os.listdir(dist_data_scripts)`, either `os.unlink` it (when its name ends
in `.pyc`) or `os.rename` it into `EGG-INFO/scripts`. -/
def processScriptEntries (dist_data : String) (fs : FileSys) :
    List String → FileSys
  | [] => fs
  | e :: rest =>
    if endsWithL e.toList ".pyc".toList then
      processScriptEntries dist_data
        (unlinkFile fs (dataScriptsDir dist_data ++ [e])) rest
    else
      processScriptEntries dist_data
        (renameFile fs (dataScriptsDir dist_data ++ [e]) (eggScriptsDir ++ [e])) rest

/-- The whole scripts-relocation block (executed when `dist_data_scripts`
exists): list the entries, process each, after which the source directory
holds no files and `os.rmdir(dist_data_scripts)` removes it. -/
def scriptsRelocation (dist_data : String) (fs : FileSys) : FileSys :=
  processScriptEntries dist_data fs (listdirNames fs (dataScriptsDir dist_data))

/-! ### `unpack` -/

/-- The filesystem state seen by `unpack`: source files and directories
(relative to `src_dir`; `[]` is `src_dir` itself) and destination files and
directories (relative to `dst_dir`).  Pruning above `src_dir` performed by
`os.removedirs` is outside the modelled universe. -/
structure UnpackState where
  srcFiles : List Path
  srcDirs : List Path
  dstFiles : List Path
  dstDirs : List Path
deriving DecidableEq, Repr

/-- `os.path.exists` on the destination side. -/
def pathExistsDst (s : UnpackState) (p : Path) : Bool :=
  s.dstFiles.contains p || s.dstDirs.contains p

/-- Is the source directory `p` empty (no file or directory strictly
below it)? -/
def dirEmptySrc (s : UnpackState) (p : Path) : Bool :=
  (s.srcFiles.all fun q => !(p.isPrefixOf q)) &&
  (s.srcDirs.all fun q => !(p.isPrefixOf q && q != p))

/-- `os.removedirs`, fuelled: remove the directory if empty, then walk up
removing newly empty ancestors, stopping at the first nonempty one (or at
`src_dir` itself, the root of the modelled universe). -/
def removedirsGo : Nat → UnpackState → Path → UnpackState
  | 0, s, _ => s
  | fuel + 1, s, p =>
    if dirEmptySrc s p then
      let s2 := { s with srcDirs := s.srcDirs.filter fun q => q ≠ p }
      match p with
      | [] => s2
      | _ :: _ => removedirsGo fuel s2 p.dropLast
    else s

/-- `os.removedirs` starting at `p` (the fuel `p.length + 1` is exactly the
number of directories on the path to the root). -/
def removedirsSrc (s : UnpackState) (p : Path) : UnpackState :=
  removedirsGo (p.length + 1) s p

/-- All proper ancestors of a path, outermost first. -/
def ancestorsOf : Path → List Path
  | [] => []
  | x :: rest => [] :: (ancestorsOf rest).map (x :: ·)

/-- Add directories to the destination, skipping those already present
(`os.makedirs` of the intermediate directories of a rename target). -/
def addDstDirs (dirs : List Path) (ps : List Path) : List Path :=
  ps.foldl (fun acc p => if acc.contains p then acc else acc ++ [p]) dirs

/-- `os.renames src dst` for a file: rename the file (creating intermediate
destination directories), then prune newly empty source ancestors. -/
def renamesFile (s : UnpackState) (src dst : Path) : UnpackState :=
  let s1 : UnpackState :=
    { s with
      srcFiles := s.srcFiles.filter fun q => q ≠ src
      dstFiles := s.dstFiles.filter (fun q => q ≠ dst) ++ [dst]
      dstDirs := addDstDirs s.dstDirs (ancestorsOf dst) }
  removedirsSrc s1 src.dropLast

/-- Rebase `q` from below `src` to below `dst`. -/
def replaceRoot (src dst q : Path) : Path := dst ++ q.drop src.length

/-- `os.renames src dst` for a directory: move the whole subtree (creating
intermediate destination directories), then prune newly empty source
ancestors. -/
def renamesDir (s : UnpackState) (src dst : Path) : UnpackState :=
  let movedFiles := (s.srcFiles.filter fun q => src.isPrefixOf q).map (replaceRoot src dst)
  let movedDirs := (s.srcDirs.filter fun q => src.isPrefixOf q).map (replaceRoot src dst)
  let s1 : UnpackState :=
    { s with
      srcFiles := s.srcFiles.filter fun q => !(src.isPrefixOf q)
      srcDirs := s.srcDirs.filter fun q => !(src.isPrefixOf q)
      dstFiles := s.dstFiles ++ movedFiles
      dstDirs := addDstDirs (s.dstDirs ++ movedDirs) (ancestorsOf dst) }
  removedirsSrc s1 src.dropLast

/-- Listing of the source subdirectory names of `p` at the current state. -/
def listSubdirNames (s : UnpackState) (p : Path) : List String :=
  s.srcDirs.filterMap (childName p)

/-- Listing of the source file names directly under `p` at the current
state. -/
def listFileNames (s : UnpackState) (p : Path) : List String :=
  s.srcFiles.filterMap (childName p)

/-- The file loop of the first `unpack` pass at directory `rel`: move every
file at the same relative path via `os.renames`. -/
def moveFiles (rel : Path) (s : UnpackState) : List String → UnpackState
  | [] => s
  | f :: rest => moveFiles rel (renamesFile s (rel ++ [f]) (rel ++ [f])) rest

/-- The `dirnames` loop of the first pass: iterate over the listed names in
reverse; a directory whose destination counterpart does not exist is moved
wholesale by `os.renames` and pruned from the walk, the others are kept for
descent (in their original order). -/
def processDirnames (rel : Path) (s : UnpackState) :
    List String → UnpackState × List String
  | [] => (s, [])
  | d :: rest =>
    let sr := processDirnames rel s rest
    if pathExistsDst sr.1 (rel ++ [d]) then (sr.1, d :: sr.2)
    else (renamesDir sr.1 (rel ++ [d]) (rel ++ [d]), sr.2)

/-- The first pass of `unpack` as a depth-first worklist (`os.walk`,
top-down): pop the next directory to visit; a vanished directory is skipped
silently (the `os.walk` default); otherwise the files and subdirectory
names are listed, the files are moved, the subdirectories renamed or kept,
and the kept ones are pushed for descent in order.  The fuel is one unit
per visit; any fuel beyond the number of source directories is ample. -/
def walkLoop : Nat → List Path → UnpackState → UnpackState
  | 0, _, s => s
  | _, [], s => s
  | fuel + 1, rel :: stack, s =>
    if s.srcDirs.contains rel then
      let dirnames := listSubdirNames s rel
      let filenames := listFileNames s rel
      let s1 := moveFiles rel s filenames
      let sr := processDirnames rel s1 dirnames
      walkLoop fuel ((sr.2.map fun d => rel ++ [d]) ++ stack) sr.1
    else walkLoop fuel stack s

/-- The errors the cleanup pass can raise: the `assert not filenames`
assertion, and `os.rmdir` on a directory that still has entries. -/
inductive UnpackError where
  | assertFilesRemain
  | rmdirNotEmpty
deriving DecidableEq, Repr

/-- The cleanup pass: `os.walk(src_dir, topdown=True)` again, and for each
yielded directory `assert not filenames` followed by `os.rmdir(dirpath)` —
which raises `OSError` when the directory still has entries (the walk is
top-down, so the root is removed first, before its subdirectories). -/
def cleanupLoop : Nat → List Path → UnpackState → Except UnpackError UnpackState
  | 0, _, s => .ok s
  | _, [], s => .ok s
  | fuel + 1, rel :: stack, s =>
    if s.srcDirs.contains rel then
      let dirnames := listSubdirNames s rel
      let filenames := listFileNames s rel
      if filenames.isEmpty = false then .error .assertFilesRemain
      else if dirnames.isEmpty = false then .error .rmdirNotEmpty
      else
        cleanupLoop fuel ((dirnames.map fun d => rel ++ [d]) ++ stack)
          { s with srcDirs := s.srcDirs.filter fun q => q ≠ rel }
    else cleanupLoop fuel stack s

/-- A fuel bound ample for every walk over `s` (one unit per path
component plus one per directory). -/
def stateFuel (s : UnpackState) : Nat :=
  (s.srcDirs.map List.length).sum + s.srcDirs.length + s.srcFiles.length + 2

/-- `unpack src_dir dst_dir`: the moving pass followed by the cleanup pass,
both walks starting at `src_dir` itself (the relative path `[]`). -/
def unpackModel (s : UnpackState) : Except UnpackError UnpackState :=
  let s1 := walkLoop (stateFuel s) [[]] s
  cleanupLoop (stateFuel s) [[]] s1

instance {ε α : Type} [DecidableEq ε] [DecidableEq α] : DecidableEq (Except ε α) := fun x y =>
  match x, y with
  | .error e, .error f =>
    match decEq e f with
    | isTrue h => isTrue (h ▸ rfl)
    | isFalse h => isFalse fun c => h (Except.error.inj c)
  | .error _, .ok _ => isFalse Except.noConfusion
  | .ok _, .error _ => isFalse Except.noConfusion
  | .ok a, .ok b =>
    match decEq a b with
    | isTrue h => isTrue (h ▸ rfl)
    | isFalse h => isFalse fun c => h (Except.ok.inj c)

/-! ## Helper lemmas -/

theorem firstSome_eq_some {α β : Type} {l : List α} {f : α → Option β} {b : β}
    (h : firstSome l f = some b) : ∃ a ∈ l, f a = some b := by
  induction l with
  | nil => simp [firstSome] at h
  | cons x xs ih =>
    rw [firstSome] at h
    cases hx : f x with
    | some y =>
      rw [hx] at h
      exact ⟨x, by simp, by rw [hx]; exact h⟩
    | none =>
      rw [hx] at h
      obtain ⟨a, ha, hfa⟩ := ih h
      exact ⟨a, by simp [ha], hfa⟩

theorem mem_nonGreedySplits {l : List Char} {s : List Char × List Char}
    (h : s ∈ nonGreedySplits l) :
    ∃ i < l.length, s = (l.take (i + 1), l.drop (i + 1)) := by
  unfold nonGreedySplits at h
  obtain ⟨i, hi, heq⟩ := List.mem_map.mp h
  exact ⟨i, List.mem_range.mp hi, heq.symm⟩

theorem take_succ_ne_nil {l : List Char} {i : Nat} (hi : i < l.length) :
    l.take (i + 1) ≠ [] := by
  intro h
  rcases List.take_eq_nil_iff.mp h with h1 | h2
  · omega
  · subst h2; simp at hi

theorem matchPlatform_some {l p : List Char} (h : matchPlatform l = some p) :
    p ≠ [] := by
  unfold matchPlatform at h
  split at h
  case isTrue hc =>
    simp only [Bool.and_eq_true, decide_eq_true_eq] at hc
    obtain ⟨⟨h5, _⟩, _⟩ := hc
    injection h with h'
    subst h'
    intro hnil
    rcases List.take_eq_nil_iff.mp hnil with h1 | h2
    · omega
    · subst h2; simp at h5
  case isFalse => exact absurd h (by simp)

theorem matchAbiPlatform_some {l : List Char} {ap : List Char × List Char}
    (h : matchAbiPlatform l = some ap) : ap.1 ≠ [] ∧ ap.2 ≠ [] := by
  unfold matchAbiPlatform at h
  obtain ⟨s, hs, hfs⟩ := firstSome_eq_some h
  obtain ⟨i, hi, heq⟩ := mem_nonGreedySplits hs
  subst heq
  split at hfs
  · split at hfs
    · rw [Option.map_eq_some'] at hfs
      obtain ⟨p, hp, heq2⟩ := hfs
      subst heq2
      exact ⟨take_succ_ne_nil hi, matchPlatform_some hp⟩
    · exact absurd hfs (by simp)
  · exact absurd hfs (by simp)

theorem matchTagsPart_some {l : List Char} {t : List Char × List Char × List Char}
    (h : matchTagsPart l = some t) : t.1 ≠ [] ∧ t.2.1 ≠ [] ∧ t.2.2 ≠ [] := by
  unfold matchTagsPart at h
  obtain ⟨s, hs, hfs⟩ := firstSome_eq_some h
  obtain ⟨i, hi, heq⟩ := mem_nonGreedySplits hs
  subst heq
  split at hfs
  · split at hfs
    · rw [Option.map_eq_some'] at hfs
      obtain ⟨ap, hap, heq2⟩ := hfs
      subst heq2
      exact ⟨take_succ_ne_nil hi, (matchAbiPlatform_some hap).1,
        (matchAbiPlatform_some hap).2⟩
    · exact absurd hfs (by simp)
  · exact absurd hfs (by simp)

theorem matchBuildTags_some {l : List Char}
    {bt : Option (List Char) × List Char × List Char × List Char}
    (h : matchBuildTags l = some bt) :
    (∀ b, bt.1 = some b → ∃ c cs, b = c :: cs ∧ c.isDigit = true) ∧
      bt.2.1 ≠ [] ∧ bt.2.2.1 ≠ [] ∧ bt.2.2.2 ≠ [] := by
  simp only [matchBuildTags] at h
  split at h
  case h_1 r hr =>
    injection h with h'
    subst h'
    split at hr
    case h_1 d t =>
      split at hr
      case isTrue hd =>
        obtain ⟨s, hs, hfs⟩ := firstSome_eq_some hr
        split at hfs
        · split at hfs
          · rw [Option.map_eq_some'] at hfs
            obtain ⟨tg, htg, heq2⟩ := hfs
            subst heq2
            refine ⟨fun b hb => ?_, (matchTagsPart_some htg).1,
              (matchTagsPart_some htg).2.1, (matchTagsPart_some htg).2.2⟩
            injection hb with hb'
            exact ⟨d, s.1, hb'.symm, hd⟩
          · exact absurd hfs (by simp)
        · exact absurd hfs (by simp)
      case isFalse => exact absurd hr (by simp)
    case h_2 => exact absurd hr (by simp)
  case h_2 =>
    split at h
    case h_1 rest =>
      rw [Option.map_eq_some'] at h
      obtain ⟨tg, htg, heq2⟩ := h
      subst heq2
      exact ⟨fun b hb => by simp at hb, (matchTagsPart_some htg).1,
        (matchTagsPart_some htg).2.1, (matchTagsPart_some htg).2.2⟩
    case h_2 => exact absurd h (by simp)

theorem matchVersionTail_some {l : List Char}
    {vt : List Char × Option (List Char) × List Char × List Char × List Char}
    (h : matchVersionTail l = some vt) :
    (∃ c cs, vt.1 = c :: cs ∧ c.isDigit = true) ∧
      (∀ b, vt.2.1 = some b → ∃ c cs, b = c :: cs ∧ c.isDigit = true) ∧
      vt.2.2.1 ≠ [] ∧ vt.2.2.2.1 ≠ [] ∧ vt.2.2.2.2 ≠ [] := by
  unfold matchVersionTail at h
  split at h
  case h_1 => exact absurd h (by simp)
  case h_2 d t =>
    split at h
    case isTrue hd =>
      obtain ⟨s, hs, hfs⟩ := firstSome_eq_some h
      split at hfs
      · rw [Option.map_eq_some'] at hfs
        obtain ⟨bt, hbt, heq2⟩ := hfs
        subst heq2
        exact ⟨⟨d, s.1, rfl, hd⟩, (matchBuildTags_some hbt).1,
          (matchBuildTags_some hbt).2.1, (matchBuildTags_some hbt).2.2.1,
          (matchBuildTags_some hbt).2.2.2⟩
      · exact absurd hfs (by simp)
    case isFalse => exact absurd h (by simp)

theorem mk_ne_empty {l : List Char} (h : l ≠ []) : String.mk l ≠ "" := by
  intro he
  apply h
  have := congrArg String.data he
  simpa using this

theorem WHEEL_NAME_some {s : String} {g : WheelGroups}
    (h : WHEEL_NAME s = some g) :
    (∃ c cs, g.version.toList = c :: cs ∧ c.isDigit = true) ∧
      (∀ b, g.build = some b → ∃ c cs, b.toList = c :: cs ∧ c.isDigit = true) ∧
      g.py_version ≠ "" ∧ g.abi ≠ "" ∧ g.platform ≠ "" := by
  unfold WHEEL_NAME at h
  obtain ⟨sp, hsp, hfs⟩ := firstSome_eq_some h
  split at hfs
  · split at hfs
    · rw [Option.map_eq_some'] at hfs
      obtain ⟨vt, hvt, heq2⟩ := hfs
      obtain ⟨⟨c, cs, hv, hc⟩, hbuild, hpy, habi, hplat⟩ := matchVersionTail_some hvt
      subst heq2
      refine ⟨⟨c, cs, by simpa [String.toList] using hv, hc⟩, ?_, ?_, ?_, ?_⟩
      · intro b hb
        simp only [Option.map_eq_some'] at hb
        obtain ⟨b', hb', heq3⟩ := hb
        obtain ⟨c', cs', hbc, hcd⟩ := (matchVersionTail_some hvt).2.1 b' hb'
        exact ⟨c', cs', by rw [← heq3, hbc]; rfl, hcd⟩
      · exact mk_ne_empty hpy
      · exact mk_ne_empty habi
      · exact mk_ne_empty hplat
    · exact absurd hfs (by simp)
  · exact absurd hfs (by simp)

theorem splitDot_ne_nil (l : List Char) : splitDot l ≠ [] := by
  cases l with
  | nil => simp [splitDot]
  | cons c rest =>
    rw [splitDot]
    split
    · simp
    · split <;> simp

theorem splitDotS_ne_nil (s : String) : splitDotS s ≠ [] := by
  unfold splitDotS
  simp [splitDot_ne_nil]

theorem tags_ne_nil (w : Wheel) : w.tags ≠ [] := by
  obtain ⟨p, hp⟩ := List.exists_mem_of_ne_nil _ (splitDotS_ne_nil w.py_version)
  obtain ⟨a, ha⟩ := List.exists_mem_of_ne_nil _ (splitDotS_ne_nil w.abi)
  obtain ⟨pl, hpl⟩ := List.exists_mem_of_ne_nil _ (splitDotS_ne_nil w.platform)
  apply List.ne_nil_of_mem (a := (p, a, pl))
  unfold Wheel.tags
  exact List.mem_flatMap.mpr ⟨p, hp, List.mem_flatMap.mpr
    ⟨a, ha, List.mem_map.mpr ⟨pl, hpl, rfl⟩⟩⟩

/-! ## Claim theorems -/

/-- C1: `is_compatible` returns true iff at least one triple in the
cross-product of `py_version.split('.')`, `abi.split('.')`,
`platform.split('.')` (`py_version` outermost, `platform` innermost) is a
member of the externally supplied supported-tag set.  The embedding
`List.any` of the `next(...)` generator short-circuits on the first match
and the function is pure. -/
theorem is_compatible_iff_product_mem (w : Wheel)
    (supported : List (String × String × String)) :
    w.is_compatible supported = true ↔
      ∃ p ∈ splitDotS w.py_version, ∃ a ∈ splitDotS w.abi,
        ∃ pl ∈ splitDotS w.platform, (p, a, pl) ∈ supported := by
  unfold Wheel.is_compatible Wheel.tags
  simp only [List.any_eq_true, List.mem_flatMap, List.mem_map]
  constructor
  · rintro ⟨t, ⟨p, hp, a, ha, pl, hpl, rfl⟩, hc⟩
    exact ⟨p, hp, a, ha, pl, hpl, by simpa using hc⟩
  · rintro ⟨p, hp, a, ha, pl, hpl, hm⟩
    exact ⟨(p, a, pl), ⟨p, hp, a, ha, pl, hpl, rfl⟩, by simpa using hm⟩

/-- C4: constructing a `Wheel` from a filename either populates all fields
from the capture groups of the grammar (with `version` and `build` starting
with a digit) or, when the basename does not match, fails with a
`ValueError` carrying the offending filename and populates no field. -/
theorem wheel_init_all_or_nothing (filename : String) :
    (∃ g : WheelGroups, WHEEL_NAME (basenameStr filename) = some g ∧
        Wheel.init filename = .ok ⟨filename, g.project_name, g.version, g.build,
          g.py_version, g.abi, g.platform⟩ ∧
        (∃ c cs, g.version.toList = c :: cs ∧ c.isDigit = true) ∧
        (∀ b, g.build = some b → ∃ c cs, b.toList = c :: cs ∧ c.isDigit = true)) ∨
      (WHEEL_NAME (basenameStr filename) = none ∧
        Wheel.init filename = .error ("invalid wheel name: " ++ filename)) := by
  cases h : WHEEL_NAME (basenameStr filename) with
  | none =>
    right
    exact ⟨rfl, by unfold Wheel.init; rw [h]⟩
  | some g =>
    left
    exact ⟨g, rfl, by unfold Wheel.init; rw [h],
      (WHEEL_NAME_some h).1, (WHEEL_NAME_some h).2.1⟩

/-- C9: every successfully constructed wheel has nonempty `py_version`,
`abi` and `platform` fields (the grammar demands at least one character in
each), and its tag cross-product is never empty. -/
theorem wheel_fields_nonempty (filename : String) (w : Wheel)
    (h : Wheel.init filename = Except.ok w) :
    w.py_version ≠ "" ∧ w.abi ≠ "" ∧ w.platform ≠ "" ∧ w.tags ≠ [] := by
  unfold Wheel.init at h
  cases hm : WHEEL_NAME (basenameStr filename) with
  | none => rw [hm] at h; exact absurd h (by simp)
  | some g =>
    rw [hm] at h
    injection h with h'
    subst h'
    obtain ⟨_, _, hpy, habi, hplat⟩ := WHEEL_NAME_some hm
    exact ⟨hpy, habi, hplat, tags_ne_nil _⟩

/-- Witness for C9 at a concrete wheel filename. -/
theorem wheel_fields_nonempty_witness :
    (⟨"foo-1.0-py2.py3-none-any.whl", "foo", "1.0", none, "py2.py3",
        "none", "any"⟩ : Wheel).tags ≠ [] :=
  (wheel_fields_nonempty "foo-1.0-py2.py3-none-any.whl" _ (by decide)).2.2.2

/-- C7: the legacy egg name is `"{project_name}-{version}-{platform}.egg"`
with the platform part omitted exactly when the wheel's `platform` field is
the literal `"any"`, and otherwise the host's current platform descriptor;
in particular project `"foo"`, version `"1.0"`, platform `"any"` gives
`"foo-1.0.egg"`. -/
theorem egg_name_spec :
    (∀ (w : Wheel) (host : String),
        w.egg_name host = w.project_name ++ "-" ++ w.version ++
          (if w.platform = "any" then "" else "-" ++ host) ++ ".egg") ∧
      Wheel.egg_name ⟨"foo-1.0-py2-none-any.whl", "foo", "1.0", none, "py2",
        "none", "any"⟩ "linux-x86_64" = "foo-1.0.egg" := by
  constructor
  · intro w host
    unfold Wheel.egg_name legacyEggName
    by_cases hp : w.platform = "any" <;> simp [hp]
  · decide

/-- C3 counterexample: on an archive with no metadata directory, the
install trace shows that metadata-directory discovery fails *before* the
destination directory is created — no `mkdir` effect is in the trace,
contradicting the claim that the destination directory "has already been
created and is left in place" when step 2 fails. -/
theorem install_mkdir_claim_counterexample :
    installAsEggTrace ⟨"f.whl", "foo", "1", none, "py2", "none", "any"⟩
        "dest" [] (parseVersion "1.0") = ([], some .distInfoNotFound) ∧
      FsOp.mkdir "dest" ∉
        (installAsEggTrace ⟨"f.whl", "foo", "1", none, "py2", "none", "any"⟩
          "dest" [] (parseVersion "1.0")).1 :=
  ⟨by decide, by decide⟩

/-- C3 amended: when metadata-directory discovery or format-version
validation fails, no filesystem mutation at all has occurred (in particular
the destination directory has not been created and nothing was extracted);
when both succeed, creating the destination directory is the first
mutation, immediately followed by extraction. -/
theorem install_mkdir_only_after_validation (w : Wheel) (dest : String)
    (names : List String) (v : PVersion) :
    ((installAsEggTrace w dest names v).2.isSome = true ∧
        (installAsEggTrace w dest names v).1 = []) ∨
      ((installAsEggTrace w dest names v).2 = none ∧
        (installAsEggTrace w dest names v).1.head? = some (.mkdir dest) ∧
        (installAsEggTrace w dest names v).1.tail.head? = some (.extractAll dest)) := by
  unfold installAsEggTrace
  cases h : get_dist_info w.project_name names with
  | error e => left; simp
  | ok di =>
    by_cases hv : wheel_v1 v = true
    · right; simp [hv]
    · left; simp [Bool.not_eq_true] at hv; simp [hv]

/-- C6 counterexample: with project `"foo"` and the single archive entry
`"foo/a.dist-info/x"`, no *top-level* directory of the archive ends in
`.dist-info`, yet `get_dist_info` succeeds and returns the nested directory
`"foo/a.dist-info"` (its name contains a `/`), contradicting the claim that
only top-level directories are considered (which would demand a
`FormatError` here). -/
theorem get_dist_info_top_level_counterexample :
    get_dist_info "foo" ["foo/a.dist-info/x"] = .ok "foo/a.dist-info" ∧
      ("foo/a.dist-info").toList.contains '/' = true :=
  ⟨by decide, by decide⟩

/-- C6 amended: `get_dist_info` returns the `posixpath.dirname` of the
first archive entry whose dirname (not necessarily a top-level directory)
ends in `.dist-info` and whose canonicalized dirname starts with the
canonicalized project name; if no entry qualifies it fails with the
"`.dist-info` not found" error. -/
theorem get_dist_info_first_qualifying (project_name : String)
    (names : List String) :
    get_dist_info project_name names =
      match names.find? (distInfoCond project_name) with
      | some member => .ok (dirnameStr member)
      | none => .error "unsupported wheel format. .dist-info not found" := by
  induction names with
  | nil => rfl
  | cons m rest ih =>
    rw [get_dist_info, List.find?_cons]
    cases h : distInfoCond project_name m with
    | true => simp [h]
    | false => simp [h, ih]

/-- C10: the cleanup-phase contract of `unpack` is violated by the code.
With a source tree consisting of a single empty directory `a` whose
destination counterpart already exists, the first pass moves nothing (there
are no files) and prunes nothing (`os.removedirs` runs only after a rename,
and none happens), so `src_dir` still contains `a` when the top-down
cleanup pass issues `os.rmdir(src_dir)` first — which raises `OSError`
(directory not empty), leaving `src_dir` in place, contrary to
"`src_dir` no longer exists".  The third conjunct shows the intended
behaviour on a neighbouring input that does have files: everything is moved
to the same relative paths and the source tree is deleted. -/
theorem unpack_rmdir_failure :
    unpackModel ⟨[], [[], ["a"]], [], [["a"]]⟩ = .error .rmdirNotEmpty ∧
      (walkLoop (stateFuel ⟨[], [[], ["a"]], [], [["a"]]⟩) [[]]
          ⟨[], [[], ["a"]], [], [["a"]]⟩).srcDirs = [[], ["a"]] ∧
      unpackModel ⟨[["a", "f.txt"], ["g"]], [[], ["a"]], [], [["a"]]⟩
        = .ok ⟨[], [], [["g"], ["a", "f.txt"]], [["a"], []]⟩ :=
  ⟨by decide, by decide, by decide⟩

/-- C2: the format-version check accepts exactly the versions `v` with
`1.0 <= v < 2.0dev0`; whenever the metadata directory was found, the trace
reports the version error exactly for rejected versions; and at the
boundary `"1.0"` and `"1.9"` are accepted while `"0.9"`, `"2.0"` and
`"2.0dev0"` are rejected (the upper bound is exclusive). -/
theorem wheel_version_boundary :
    (∀ v : PVersion, wheel_v1 v = true ↔
        (pvLe (parseVersion "1.0") v = true ∧
          pvLt v (parseVersion "2.0dev0") = true)) ∧
      (∀ (w : Wheel) (dest : String) (names : List String) (v : PVersion)
          (di : String), get_dist_info w.project_name names = .ok di →
            ((installAsEggTrace w dest names v).2 = some .badWheelVersion ↔
              wheel_v1 v = false)) ∧
      wheel_v1 (parseVersion "1.0") = true ∧
      wheel_v1 (parseVersion "1.9") = true ∧
      wheel_v1 (parseVersion "0.9") = false ∧
      wheel_v1 (parseVersion "2.0") = false ∧
      wheel_v1 (parseVersion "2.0dev0") = false := by
  refine ⟨fun v => by simp [wheel_v1], ?_, by decide, by decide, by decide,
    by decide, by decide⟩
  intro w dest names v di h
  unfold installAsEggTrace
  rw [h]
  cases hv : wheel_v1 v <;> simp [hv]

/-- Witness for C2's trace conjunct: a concrete archive whose metadata
directory is found and whose declared version `"2.0"` is rejected. -/
theorem wheel_version_boundary_witness :
    (installAsEggTrace ⟨"f.whl", "foo", "1.0", none, "py2", "none", "any"⟩
        "d" ["foo-1.0.dist-info/METADATA"] (parseVersion "2.0")).2 =
      some .badWheelVersion := by
  have h := wheel_version_boundary.2.1
    ⟨"f.whl", "foo", "1.0", none, "py2", "none", "any"⟩ "d"
    ["foo-1.0.dist-info/METADATA"] (parseVersion "2.0")
    "foo-1.0.dist-info" (by decide)
  exact h.mpr (by decide)

theorem clLe_total (a : List Char) : ∀ b : List Char,
    clLe a b = true ∨ clLe b a = true := by
  induction a with
  | nil => intro b; left; rfl
  | cons x xs ih =>
    intro b
    cases b with
    | nil => right; rfl
    | cons y ys =>
      rw [clLe, clLe]
      rcases Nat.lt_trichotomy x.toNat y.toNat with h | h | h
      · left; rw [if_pos h]
      · have h1 : ¬ x.toNat < y.toNat := by omega
        have h2 : ¬ y.toNat < x.toNat := by omega
        rcases ih ys with hl | hr
        · left; rw [if_neg h1, if_neg h2]; exact hl
        · right; rw [if_neg h2, if_neg h1]; exact hr
      · right; rw [if_pos h]

theorem clLe_trans (a : List Char) : ∀ b c : List Char,
    clLe a b = true → clLe b c = true → clLe a c = true := by
  induction a with
  | nil => intro b c _ _; rfl
  | cons x xs ih =>
    intro b c hab hbc
    cases b with
    | nil => simp [clLe] at hab
    | cons y ys =>
      cases c with
      | nil => simp [clLe] at hbc
      | cons z zs =>
        rw [clLe] at hab hbc ⊢
        by_cases h1 : x.toNat < y.toNat
        · by_cases h2 : y.toNat < z.toNat
          · rw [if_pos (show x.toNat < z.toNat by omega)]
          · rw [if_neg h2] at hbc
            by_cases h3 : z.toNat < y.toNat
            · rw [if_pos h3] at hbc; exact absurd hbc (by simp)
            · rw [if_pos (show x.toNat < z.toNat by omega)]
        · rw [if_neg h1] at hab
          by_cases h4 : y.toNat < x.toNat
          · rw [if_pos h4] at hab; exact absurd hab (by simp)
          · rw [if_neg h4] at hab
            by_cases h2 : y.toNat < z.toNat
            · rw [if_pos (show x.toNat < z.toNat by omega)]
            · rw [if_neg h2] at hbc
              by_cases h3 : z.toNat < y.toNat
              · rw [if_pos h3] at hbc; exact absurd hbc (by simp)
              · rw [if_neg h3] at hbc
                rw [if_neg (show ¬ x.toNat < z.toNat by omega),
                  if_neg (show ¬ z.toNat < x.toNat by omega)]
                exact ih ys zs hab hbc

theorem pySorted_sorted (l : List String) :
    List.Sorted (fun a b => pyStrLe a b = true) (pySorted l) :=
  @List.sorted_insertionSort String (fun a b => pyStrLe a b = true) _
    ⟨fun a b => clLe_total a.toList b.toList⟩
    ⟨fun a b c => clLe_trans a.toList b.toList c.toList⟩ l

/-- C5: requirement normalization strips the environment marker of every
requirement, the base install-requirements list and every extra's list are
lexicographically sorted, an extra's list excludes every requirement string
already in the base list, and on the spec's example (base `["a>=1"]`, extra
`"test"` requirements `["a>=1", "b"]`) the derived extra list is `["b"]`. -/
theorem requirements_normalization (d : DistModel) (extra : String) :
    (∀ r : Req, raw_req r = r.plain) ∧
      List.Sorted (fun a b => pyStrLe a b = true) (install_requires d) ∧
      List.Sorted (fun a b => pyStrLe a b = true) (extras_require d extra) ∧
      (∀ s ∈ extras_require d extra, s ∉ install_requires d) ∧
      install_requires ⟨[⟨"a>=1", none⟩], ["test"],
        fun _ => [⟨"a>=1", none⟩, ⟨"b", none⟩]⟩ = ["a>=1"] ∧
      extras_require ⟨[⟨"a>=1", none⟩], ["test"],
        fun _ => [⟨"a>=1", none⟩, ⟨"b", none⟩]⟩ "test" = ["b"] := by
  refine ⟨?_, pySorted_sorted _, pySorted_sorted _, ?_, by decide, by decide⟩
  · intro r
    unfold raw_req reqStr
    exact String.append_empty r.plain
  · intro s hs hmem
    unfold extras_require pySorted at hs
    rw [List.mem_insertionSort, List.mem_filter] at hs
    obtain ⟨_, hcond⟩ := hs
    rw [Bool.not_eq_true'] at hcond
    have hc : (install_requires d).contains s = true := by
      rw [List.contains_eq_any_beq, List.any_eq_true]
      exact ⟨s, hmem, by simp⟩
    rw [hcond] at hc
    exact absurd hc (by simp)

/-! ## Scripts relocation lemmas -/

theorem childName_self_append (dir : Path) (n : String) :
    childName dir (dir ++ [n]) = some n := by
  unfold childName
  rw [List.take_left, List.drop_left, if_pos rfl]

theorem childName_none_of_take_ne {dir p : Path}
    (h : p.take dir.length ≠ dir) : childName dir p = none := by
  unfold childName
  rw [if_neg h]

theorem ne_child_of_take_two_ne {p dir : Path} (hlen : dir.length = 2)
    (h : p.take 2 ≠ dir) (n : String) : p ≠ dir ++ [n] := by
  intro he
  apply h
  rw [he, ← hlen, List.take_left]

theorem unlink_split (dd : String) (other : FileSys) (e : String × Nat)
    (rest : List (String × Nat))
    (hother : ∀ pr ∈ other, pr.1.take 2 ≠ dataScriptsDir dd)
    (hnotin : e.1 ∉ rest.map Prod.fst) :
    unlinkFile (other ++ (dataScriptsDir dd ++ [e.1], e.2) ::
        (rest.map fun ec => (dataScriptsDir dd ++ [ec.1], ec.2)))
        (dataScriptsDir dd ++ [e.1])
      = other ++ (rest.map fun ec => (dataScriptsDir dd ++ [ec.1], ec.2)) := by
  unfold unlinkFile
  rw [List.filter_append, List.filter_cons]
  have h1 : List.filter (fun pr => decide (pr.1 ≠ dataScriptsDir dd ++ [e.1]))
      other = other := by
    rw [List.filter_eq_self]
    intro pr hpr
    simp only [decide_eq_true_eq]
    exact ne_child_of_take_two_ne (by rfl) (hother pr hpr) e.1
  have h2 : List.filter (fun pr => decide (pr.1 ≠ dataScriptsDir dd ++ [e.1]))
      (rest.map fun ec => (dataScriptsDir dd ++ [ec.1], ec.2)) =
      rest.map fun ec => (dataScriptsDir dd ++ [ec.1], ec.2) := by
    rw [List.filter_eq_self]
    intro pr hpr
    obtain ⟨ec, hec, rfl⟩ := List.mem_map.mp hpr
    simp only [decide_eq_true_eq]
    intro he
    have hne : ec.1 = e.1 := by
      have h' := List.append_cancel_left he
      simpa using h'
    exact hnotin (List.mem_map.mpr ⟨ec, hec, hne⟩)
  rw [h1, h2]
  simp

theorem rename_split (dd : String) (other : FileSys) (e : String × Nat)
    (rest : List (String × Nat))
    (hother : ∀ pr ∈ other, pr.1.take 2 ≠ dataScriptsDir dd)
    (hnotin : e.1 ∉ rest.map Prod.fst) :
    renameFile (other ++ (dataScriptsDir dd ++ [e.1], e.2) ::
        (rest.map fun ec => (dataScriptsDir dd ++ [ec.1], ec.2)))
        (dataScriptsDir dd ++ [e.1]) (eggScriptsDir ++ [e.1])
      = other ++ (eggScriptsDir ++ [e.1], e.2) ::
          (rest.map fun ec => (dataScriptsDir dd ++ [ec.1], ec.2)) := by
  unfold renameFile
  rw [List.map_append, List.map_cons, if_pos rfl]
  have h1 : (other.map fun pr =>
      if pr.1 = dataScriptsDir dd ++ [e.1] then (eggScriptsDir ++ [e.1], pr.2)
      else pr) = other := by
    conv_rhs => rw [← List.map_id other]
    apply List.map_congr_left
    intro pr hpr
    dsimp only
    rw [if_neg (ne_child_of_take_two_ne (by rfl) (hother pr hpr) e.1)]
    rfl
  have h2 : ((rest.map fun ec => (dataScriptsDir dd ++ [ec.1], ec.2)).map
      fun pr => if pr.1 = dataScriptsDir dd ++ [e.1]
        then (eggScriptsDir ++ [e.1], pr.2) else pr) =
      rest.map fun ec => (dataScriptsDir dd ++ [ec.1], ec.2) := by
    rw [List.map_map]
    apply List.map_congr_left
    intro ec hec
    simp only [Function.comp]
    rw [if_neg]
    intro he
    have hne : ec.1 = e.1 := by
      have h' := List.append_cancel_left he
      simpa using h'
    exact absurd (List.mem_map.mpr ⟨ec, hec, hne⟩) hnotin
  rw [h1, h2]

theorem processScriptEntries_split (dd : String) (entries : List (String × Nat)) :
    ∀ other : FileSys,
      (∀ pr ∈ other, pr.1.take 2 ≠ dataScriptsDir dd) →
      (entries.map Prod.fst).Nodup →
      dd ≠ "EGG-INFO" →
      processScriptEntries dd
          (other ++ entries.map fun ec => (dataScriptsDir dd ++ [ec.1], ec.2))
          (entries.map Prod.fst)
        = other ++
          ((entries.filter fun ec => !endsWithL ec.1.toList ".pyc".toList).map
            fun ec => (eggScriptsDir ++ [ec.1], ec.2)) := by
  induction entries with
  | nil => intro other _ _ _; simp [processScriptEntries]
  | cons e rest ih =>
    intro other hother hnodup hdd
    rw [List.map_cons, List.map_cons, processScriptEntries]
    rw [List.map_cons, List.nodup_cons] at hnodup
    obtain ⟨hnotin, hnd⟩ := hnodup
    by_cases hpyc : endsWithL e.1.toList ".pyc".toList = true
    · rw [if_pos hpyc, unlink_split dd other e rest hother hnotin,
        ih other hother hnd hdd, List.filter_cons,
        if_neg (by simp only [hpyc]; decide)]
    · have hx : endsWithL e.1.toList ".pyc".toList = false :=
        Bool.eq_false_iff.mpr hpyc
      rw [if_neg hpyc, rename_split dd other e rest hother hnotin]
      have hstep : other ++ (eggScriptsDir ++ [e.1], e.2) ::
          (rest.map fun ec => (dataScriptsDir dd ++ [ec.1], ec.2)) =
          (other ++ [(eggScriptsDir ++ [e.1], e.2)]) ++
            (rest.map fun ec => (dataScriptsDir dd ++ [ec.1], ec.2)) := by
        simp
      rw [hstep, ih (other ++ [(eggScriptsDir ++ [e.1], e.2)]) ?_ hnd hdd,
        List.filter_cons, if_pos (by simp only [hx]; decide)]
      · simp
      · intro pr hpr
        rcases List.mem_append.mp hpr with hin | hin
        · exact hother pr hin
        · rw [List.mem_singleton] at hin
          subst hin
          intro he
          have : "EGG-INFO" = dd := by
            have := congrArg (fun l => l.headI) he
            simpa [eggScriptsDir, dataScriptsDir] using this
          exact hdd this.symm

theorem listdirNames_data_scripts (dd : String) (other : FileSys)
    (entries : List (String × Nat))
    (hother : ∀ pr ∈ other, pr.1.take 2 ≠ dataScriptsDir dd) :
    listdirNames (other ++ entries.map fun ec => (dataScriptsDir dd ++ [ec.1], ec.2))
        (dataScriptsDir dd) = entries.map Prod.fst := by
  unfold listdirNames
  rw [List.filterMap_append]
  have h1 : (List.filterMap (fun e => childName (dataScriptsDir dd) e.1) other)
      = [] := by
    rw [List.filterMap_eq_nil_iff]
    intro pr hpr
    exact childName_none_of_take_ne (hother pr hpr)
  rw [h1, List.filterMap_map]
  have h2 : ((fun e : Path × Nat => childName (dataScriptsDir dd) e.1) ∘
      fun ec : String × Nat => (dataScriptsDir dd ++ [ec.1], ec.2)) =
      fun ec : String × Nat => some ec.1 := by
    funext ec
    exact childName_self_append (dataScriptsDir dd) ec.1
  rw [h2]
  simp only [List.nil_append]
  induction entries with
  | nil => rfl
  | cons x xs ihx => simp only [List.filterMap_cons, List.map_cons, ihx]

/-- C8: for a data directory whose `scripts` subdirectory holds the flat
entries `entries` (the rest of the tree being `other`, which has nothing
under either scripts directory), the relocation (1) produces exactly the
non-`.pyc` entries under `EGG-INFO/scripts` with the rest of the tree
untouched, (2) leaves nothing under the source scripts directory (so its
`os.rmdir` succeeds), (3) makes every `.pyc` entry disappear from the final
tree, and (4) places every other entry under `EGG-INFO/scripts`. -/
theorem scripts_relocation_spec (dd : String) (other : FileSys)
    (entries : List (String × Nat))
    (hother : ∀ pr ∈ other,
      pr.1.take 2 ≠ dataScriptsDir dd ∧ pr.1.take 2 ≠ eggScriptsDir)
    (hnodup : (entries.map Prod.fst).Nodup)
    (hdd : dd ≠ "EGG-INFO") :
    scriptsRelocation dd
        (other ++ entries.map fun ec => (dataScriptsDir dd ++ [ec.1], ec.2))
      = other ++
        ((entries.filter fun ec => !endsWithL ec.1.toList ".pyc".toList).map
          fun ec => (eggScriptsDir ++ [ec.1], ec.2)) ∧
    (∀ pr ∈ scriptsRelocation dd
        (other ++ entries.map fun ec => (dataScriptsDir dd ++ [ec.1], ec.2)),
      ∀ n : String, pr.1 ≠ dataScriptsDir dd ++ [n]) ∧
    (∀ ec ∈ entries, endsWithL ec.1.toList ".pyc".toList = true →
      ∀ pr ∈ scriptsRelocation dd
          (other ++ entries.map fun ec => (dataScriptsDir dd ++ [ec.1], ec.2)),
        pr.1 ≠ eggScriptsDir ++ [ec.1] ∧ pr.1 ≠ dataScriptsDir dd ++ [ec.1]) ∧
    (∀ ec ∈ entries, endsWithL ec.1.toList ".pyc".toList = false →
      (eggScriptsDir ++ [ec.1], ec.2) ∈ scriptsRelocation dd
        (other ++ entries.map fun ec => (dataScriptsDir dd ++ [ec.1], ec.2))) := by
  have hother1 : ∀ pr ∈ other, pr.1.take 2 ≠ dataScriptsDir dd :=
    fun pr h => (hother pr h).1
  have heq : scriptsRelocation dd
      (other ++ entries.map fun ec => (dataScriptsDir dd ++ [ec.1], ec.2))
      = other ++
        ((entries.filter fun ec => !endsWithL ec.1.toList ".pyc".toList).map
          fun ec => (eggScriptsDir ++ [ec.1], ec.2)) := by
    unfold scriptsRelocation
    rw [listdirNames_data_scripts dd other entries hother1]
    exact processScriptEntries_split dd entries other hother1 hnodup hdd
  have hnods : ∀ pr ∈ scriptsRelocation dd
      (other ++ entries.map fun ec => (dataScriptsDir dd ++ [ec.1], ec.2)),
      ∀ n : String, pr.1 ≠ dataScriptsDir dd ++ [n] := by
    intro pr hpr n
    rw [heq] at hpr
    rcases List.mem_append.mp hpr with hin | hin
    · exact ne_child_of_take_two_ne (by rfl) (hother pr hin).1 n
    · obtain ⟨ec, hec, rfl⟩ := List.mem_map.mp hin
      intro he
      simp only [eggScriptsDir, dataScriptsDir, List.cons_append,
        List.nil_append, List.cons.injEq] at he
      exact hdd he.1.symm
  refine ⟨heq, hnods, ?_, ?_⟩
  · intro ec hec hpyc pr hpr
    refine ⟨?_, hnods pr hpr ec.1⟩
    rw [heq] at hpr
    rcases List.mem_append.mp hpr with hin | hin
    · exact ne_child_of_take_two_ne (by rfl) (hother pr hin).2 ec.1
    · obtain ⟨ec', hec', rfl⟩ := List.mem_map.mp hin
      intro he
      have heq1 : ec'.1 = ec.1 := by simpa using List.append_cancel_left he
      rw [List.mem_filter] at hec'
      have hx := hec'.2
      rw [heq1, hpyc] at hx
      exact absurd hx (by decide)
  · intro ec hec hpyc
    rw [heq]
    apply List.mem_append.mpr
    right
    exact List.mem_map.mpr
      ⟨ec, List.mem_filter.mpr ⟨hec, by rw [hpyc]; decide⟩, rfl⟩

/-- Witness for C8: a data directory with a `run.pyc` and a `run` script
next to an unrelated package file; `run.pyc` is deleted, `run` moves under
`EGG-INFO/scripts`, the package file is untouched. -/
theorem scripts_relocation_spec_witness :
    scriptsRelocation "foo-1.0.data"
        [(["pkg", "m.py"], 2), (["foo-1.0.data", "scripts", "run.pyc"], 0),
         (["foo-1.0.data", "scripts", "run"], 1)]
      = [(["pkg", "m.py"], 2), (["EGG-INFO", "scripts", "run"], 1)] := by
  have h := (scripts_relocation_spec "foo-1.0.data" [(["pkg", "m.py"], 2)]
    [("run.pyc", 0), ("run", 1)] (by decide) (by decide) (by decide)).1
  exact h

end WheelVerif
